import Mathlib

/-!
Verification of the EMI installment scheduling and reconciliation engine of
the expense-and-diary tracker (src/app.py).

The embedding models the EMI-related state and operations of app.py:
  * `calculate_emi_schedule` (app.py lines 39-62),
  * `add_emi_plan`           (POST /api/emi, lines 340-368),
  * `list_emi_plans`         (GET /api/emi, lines 370-404; the upcoming list
                              and the per-plan total_paid aggregate),
  * `mark_emi_paid`          (POST /api/emi/paid, lines 407-426),
  * `delete_emi_plan`        (DELETE /api/emi/<id>, lines 428-433).

Representation choices:
  * Calendar dates are (year, month, day) triples of naturals.  Python
    compares and matches dates via their ISO `YYYY-MM-DD` strings; on valid
    dates ISO-string equality and ordering coincide with equality and
    lexicographic ordering of the triples, which is what `dateLt` / `dateLe`
    implement.
  * `dateutil.relativedelta(months=+i)` advances the month index by `i` and
    clamps the day of month to the length of the target month; `addMonths`
    implements exactly that.
  * Monetary floats are modelled as rationals; no claim here depends on
    float rounding.
  * The SQLite-backed tables are lists of records plus autoincrement
    counters (`AppState`).  `EMIPayment.paid` defaults to `False` in the
    schema, so the flag is carried in the model even though reconciliation
    never reads it.
  * Python's `list.sort` is a stable sort; a stable sort over a total
    preorder is uniquely determined, and `sortStable` (stable insertion
    sort) is the model of it.
-/

namespace EmiTracker

/-- Gregorian leap-year test (as used by Python's `datetime.date`). -/
def isLeap (y : Nat) : Bool :=
  y % 4 == 0 && (y % 100 != 0 || y % 400 == 0)

/-- Number of days of month `m` of year `y`. -/
def daysInMonth (y m : Nat) : Nat :=
  if m = 2 then (if isLeap y then 29 else 28)
  else if m = 4 ∨ m = 6 ∨ m = 9 ∨ m = 11 then 30
  else 31

/-- A calendar date, `datetime.date` in the source. -/
structure Date where
  year : Nat
  month : Nat
  day : Nat
deriving DecidableEq, Repr

/-- Strict lexicographic order on dates; on valid dates this is exactly the
ordering of their ISO `YYYY-MM-DD` strings used by app.py. -/
def dateLt (a b : Date) : Bool :=
  decide (a.year < b.year) ||
    (a.year == b.year &&
      (decide (a.month < b.month) ||
        (a.month == b.month && decide (a.day < b.day))))

/-- Reflexive lexicographic order on dates (ISO-string `<=`). -/
def dateLe (a b : Date) : Bool :=
  decide (a.year < b.year) ||
    (a.year == b.year &&
      (decide (a.month < b.month) ||
        (a.month == b.month && decide (a.day ≤ b.day))))

/-- Linear month index of a date: `year * 12 + (month - 1)`. -/
def monthIdx (d : Date) : Nat :=
  d.year * 12 + (d.month - 1)

/-- Model of `d + relativedelta(months=+n)`: advance the month index by `n` and clamp
the day to the length of the target month (dateutil semantics). -/
def addMonths (d : Date) (n : Nat) : Date :=
  let idx := d.year * 12 + (d.month - 1) + n
  { year := idx / 12
    month := idx % 12 + 1
    day := min d.day (daysInMonth (idx / 12) (idx % 12 + 1)) }

/-- Row of the `emi_plan` table (class `EMIPlan`, app.py lines 82-89).
`duration_months` is an `Int` because the route parses an arbitrary integer
before validating it. -/
structure EMIPlan where
  id : Nat
  start_date : Date
  amount : Rat
  duration_months : Int
  note : String
  monthly_payment : Rat
deriving DecidableEq, Repr

/-- Row of the `emi_payment` table (class `EMIPayment`, app.py lines 91-95).
The schema declares `paid` with `default=False`. -/
structure EMIPayment where
  id : Nat
  plan_id : Nat
  due_date : Date
  paid : Bool
deriving DecidableEq, Repr

/-- One entry of the list returned by `calculate_emi_schedule`: the dict of
app.py lines 52-60.  The string fields `emi_key` and `month` are represented
by their content (`emi_key` is determined by `plan_id` and `due_date`;
`month` is the `(year, month)` pair of the due date). -/
structure ScheduleEntry where
  plan_id : Nat
  month : Nat × Nat
  due_date : Date
  amount : Rat
  note : String
  is_paid : Bool
deriving DecidableEq, Repr

/-- The persistent EMI state: the two tables plus their autoincrement
primary-key counters. -/
structure AppState where
  plans : List EMIPlan
  payments : List EMIPayment
  next_plan_id : Nat
  next_payment_id : Nat
deriving DecidableEq, Repr

/-- The empty database. -/
def emptyState : AppState :=
  { plans := [], payments := [], next_plan_id := 0, next_payment_id := 0 }

/-- The error outcomes the EMI routes can produce: HTTP 400 (validation),
409 (duplicate plan) and 404 (`get_or_404`). -/
inductive ApiError where
  | validation
  | duplicate
  | notFound
deriving DecidableEq, Repr

deriving instance DecidableEq for Except

/-- Projection of `plan.payments.all()` to due dates: the payment rows whose
`plan_id` references the plan.  `calculate_emi_schedule` turns this into its
`paid_dates` set (app.py line 43); membership there is by ISO string, which
on dates is plain date equality. -/
def paidDates (plan : EMIPlan) (payments : List EMIPayment) : List Date :=
  (payments.filter (fun p => p.plan_id == plan.id)).map (fun p => p.due_date)

/-- Embedding of `calculate_emi_schedule` (app.py lines 39-62): for `i` in
`range(duration_months)` the due date is `start_date + relativedelta(months=+i)`
and `is_paid` is membership of that date in `paid_dates`.  (`range` of a
non-positive int is empty, hence `Int.toNat`.) -/
def calculate_emi_schedule (plan : EMIPlan) (payments : List EMIPayment) :
    List ScheduleEntry :=
  let paid_dates := paidDates plan payments
  (List.range plan.duration_months.toNat).map (fun i =>
    let due := addMonths plan.start_date i
    { plan_id := plan.id
      month := (due.year, due.month)
      due_date := due
      amount := plan.monthly_payment
      note := plan.note
      is_paid := paid_dates.contains due })

/-- Embedding of `add_emi_plan` (app.py lines 340-368).  Rejects `duration_months <= 0`
with HTTP 400, then computes `monthly_payment = amount / duration_months`,
then rejects an existing plan with the same `(note, start_date)` pair with
HTTP 409 (SQLAlchemy `filter_by` equality on a SQLite text column is exact
and case-sensitive), otherwise inserts the plan.  Returns the new plan id on
success.  `amount` is never validated. -/
def add_emi_plan (amount : Rat) (duration_months : Int) (note : String)
    (start_date : Date) (s : AppState) : Except ApiError (AppState × Nat) :=
  if duration_months ≤ 0 then
    .error .validation
  else
    let monthly_payment := amount / (duration_months : Rat)
    if s.plans.any (fun p => p.note == note && p.start_date == start_date) then
      .error .duplicate
    else
      let plan : EMIPlan :=
        { id := s.next_plan_id
          start_date := start_date
          amount := amount
          duration_months := duration_months
          note := note
          monthly_payment := monthly_payment }
      .ok ({ s with plans := s.plans ++ [plan]
                    next_plan_id := s.next_plan_id + 1 }, s.next_plan_id)

/-- Set `paid := True` on the first payment row matching `(plan_id, due_date)`
(the row returned by `.first()` in app.py line 416). -/
def setFirstPaid (pid : Nat) (d : Date) : List EMIPayment → List EMIPayment
  | [] => []
  | p :: ps =>
    if p.plan_id == pid && p.due_date == d then
      { p with paid := true } :: ps
    else
      p :: setFirstPaid pid d ps

/-- Embedding of `mark_emi_paid` (app.py lines 407-426): find the payment row keyed by
`(plan_id, due_date)`; if none exists insert one with `paid=True`, otherwise
set `paid=True` on it.  The route never checks that the plan exists and
always answers 200. -/
def mark_emi_paid (pid : Nat) (d : Date) (s : AppState) : AppState :=
  if s.payments.any (fun p => p.plan_id == pid && p.due_date == d) then
    { s with payments := setFirstPaid pid d s.payments }
  else
    { s with
      payments := s.payments ++
        [{ id := s.next_payment_id, plan_id := pid, due_date := d, paid := true }]
      next_payment_id := s.next_payment_id + 1 }

/-- Embedding of `delete_emi_plan` (app.py lines 428-433): `get_or_404` then delete; the
relationship's `cascade='all, delete-orphan'` (line 89) removes the plan's
payment rows in the same unit of work. -/
def delete_emi_plan (id : Nat) (s : AppState) : Except ApiError AppState :=
  if s.plans.any (fun p => p.id == id) then
    .ok { s with
          plans := s.plans.filter (fun p => p.id != id)
          payments := s.payments.filter (fun p => p.plan_id != id) }
  else
    .error .notFound

/-- The due dates with a payment row for a given plan id
(`listPaymentDates` of the spec's Plan Store interface). -/
def listPaymentDates (pid : Nat) (s : AppState) : List Date :=
  (s.payments.filter (fun p => p.plan_id == pid)).map (fun p => p.due_date)

/-- Number of payment rows stored under the key `(pid, d)`. -/
def countKey (pid : Nat) (d : Date) (s : AppState) : Nat :=
  (s.payments.filter (fun p => p.plan_id == pid && p.due_date == d)).length

/-- Aggregate `total_paid` of the per-plan summary (app.py line 394): the number of
schedule entries with `is_paid`. -/
def totalPaid (plan : EMIPlan) (payments : List EMIPayment) : Nat :=
  ((calculate_emi_schedule plan payments).filter (fun e => e.is_paid)).length

/-- Insert `a` into `l` directly before the first element that is not
strictly below it: the insertion step of a stable insertion sort. -/
def insertSorted (lt : α → α → Bool) (a : α) : List α → List α
  | [] => [a]
  | b :: bs => if lt b a then b :: insertSorted lt a bs else a :: b :: bs

/-- Stable sort with strict comparator `lt`.  Python's `list.sort` is a
stable sort, and a stable sort over a total preorder has a unique result,
so stable insertion sort is a faithful model of it. -/
def sortStable (lt : α → α → Bool) : List α → List α
  | [] => []
  | a :: l => insertSorted lt a (sortStable lt l)

/-- The plan iteration order of `list_emi_plans` (app.py line 373):
`order_by(EMIPlan.start_date.desc(), EMIPlan.id.desc())`. -/
def plansOrdered (s : AppState) : List EMIPlan :=
  sortStable
    (fun a b =>
      dateLt b.start_date a.start_date ||
        (a.start_date == b.start_date && decide (b.id < a.id)))
    s.plans

/-- The list `all_payments` of `list_emi_plans` (app.py lines 376-381): the schedules
of all plans, concatenated in plan iteration order. -/
def allPayments (s : AppState) : List ScheduleEntry :=
  (plansOrdered s).flatMap (fun plan => calculate_emi_schedule plan s.payments)

/-- The upcoming list of `list_emi_plans` (app.py lines 398-402): keep the
unpaid entries with `due_date >= today` and sort ascending by due date with
the stable `list.sort`. -/
def upcomingPayments (s : AppState) (today : Date) : List ScheduleEntry :=
  sortStable (fun x y => dateLt x.due_date y.due_date)
    ((allPayments s).filter (fun p => !p.is_paid && dateLe today p.due_date))

/-! ### Order facts about `dateLt` / `dateLe` -/

theorem dateLt_iff (a b : Date) :
    dateLt a b = true ↔
      (a.year < b.year ∨ (a.year = b.year ∧
        (a.month < b.month ∨ (a.month = b.month ∧ a.day < b.day)))) := by
  simp [dateLt, Bool.or_eq_true, Bool.and_eq_true, decide_eq_true_eq, beq_iff_eq]

theorem dateLe_iff (a b : Date) :
    dateLe a b = true ↔
      (a.year < b.year ∨ (a.year = b.year ∧
        (a.month < b.month ∨ (a.month = b.month ∧ a.day ≤ b.day)))) := by
  simp [dateLe, Bool.or_eq_true, Bool.and_eq_true, decide_eq_true_eq, beq_iff_eq]

theorem dateLt_ne {a b : Date} (h : dateLt a b = true) : a ≠ b := by
  rw [dateLt_iff] at h
  intro hab
  subst hab
  omega

theorem dateLe_of_not_lt {a b : Date} (h : dateLt b a = false) :
    dateLe a b = true := by
  rw [dateLe_iff]
  rw [← Bool.not_eq_true, dateLt_iff] at h
  omega

theorem dateLe_of_lt {a b : Date} (h : dateLt a b = true) : dateLe a b = true := by
  rw [dateLe_iff]
  rw [dateLt_iff] at h
  omega

theorem dateLe_trans {a b c : Date} (h₁ : dateLe a b = true)
    (h₂ : dateLe b c = true) : dateLe a c = true := by
  rw [dateLe_iff] at h₁ h₂ ⊢
  omega

/-! ### Stable-sort lemmas, for a sort keyed by a `Date`-valued key -/

theorem mem_insertSorted (lt : α → α → Bool) (a x : α) (l : List α) :
    x ∈ insertSorted lt a l ↔ x = a ∨ x ∈ l := by
  induction l with
  | nil => simp [insertSorted]
  | cons b bs ih =>
    simp only [insertSorted]
    by_cases hb : lt b a = true
    · rw [if_pos hb]
      simp [ih]
      tauto
    · rw [if_neg hb]
      simp

theorem mem_sortStable (lt : α → α → Bool) (x : α) (l : List α) :
    x ∈ sortStable lt l ↔ x ∈ l := by
  induction l with
  | nil => simp [sortStable]
  | cons a l ih =>
    simp [sortStable, mem_insertSorted, ih]

theorem pairwise_insertSorted (key : α → Date) (a : α) (l : List α)
    (h : l.Pairwise (fun x y => dateLe (key x) (key y) = true)) :
    (insertSorted (fun x y => dateLt (key x) (key y)) a l).Pairwise
      (fun x y => dateLe (key x) (key y) = true) := by
  induction l with
  | nil => simp [insertSorted]
  | cons b bs ih =>
    rw [List.pairwise_cons] at h
    simp only [insertSorted]
    by_cases hb : dateLt (key b) (key a) = true
    · rw [if_pos hb]
      rw [List.pairwise_cons]
      refine ⟨?_, ih h.2⟩
      intro x hx
      rw [mem_insertSorted] at hx
      rcases hx with rfl | hx
      · exact dateLe_of_lt hb
      · exact h.1 x hx
    · rw [if_neg hb]
      rw [List.pairwise_cons]
      refine ⟨?_, List.pairwise_cons.mpr h⟩
      intro x hx
      have hab : dateLe (key a) (key b) = true :=
        dateLe_of_not_lt (Bool.not_eq_true _ ▸ hb)
      rcases List.mem_cons.mp hx with rfl | hx
      · exact hab
      · exact dateLe_trans hab (h.1 x hx)

theorem pairwise_sortStable (key : α → Date) (l : List α) :
    (sortStable (fun x y => dateLt (key x) (key y)) l).Pairwise
      (fun x y => dateLe (key x) (key y) = true) := by
  induction l with
  | nil => simp [sortStable]
  | cons a l ih => exact pairwise_insertSorted key a _ ih

theorem filter_insertSorted_eq (key : α → Date) (a : α) (l : List α)
    (d : Date) (hd : key a = d) :
    (insertSorted (fun x y => dateLt (key x) (key y)) a l).filter
        (fun x => key x == d) =
      a :: l.filter (fun x => key x == d) := by
  subst hd
  induction l with
  | nil => simp [insertSorted]
  | cons b bs ih =>
    simp only [insertSorted]
    by_cases hb : dateLt (key b) (key a) = true
    · rw [if_pos hb]
      have hbd : (key b == key a) = false := by
        simp only [beq_eq_false_iff_ne, ne_eq]
        exact dateLt_ne hb
      simp [List.filter_cons, hbd, ih]
    · rw [if_neg hb]
      simp [List.filter_cons]

theorem filter_insertSorted_ne (key : α → Date) (a : α) (l : List α)
    (d : Date) (hd : key a ≠ d) :
    (insertSorted (fun x y => dateLt (key x) (key y)) a l).filter
        (fun x => key x == d) =
      l.filter (fun x => key x == d) := by
  induction l with
  | nil => simp [insertSorted, hd]
  | cons b bs ih =>
    simp only [insertSorted]
    by_cases hb : dateLt (key b) (key a) = true
    · rw [if_pos hb]
      simp [List.filter_cons, ih]
    · rw [if_neg hb]
      simp [List.filter_cons, hd]

theorem filter_sortStable (key : α → Date) (l : List α) (d : Date) :
    (sortStable (fun x y => dateLt (key x) (key y)) l).filter
        (fun x => key x == d) =
      l.filter (fun x => key x == d) := by
  induction l with
  | nil => simp [sortStable]
  | cons a l ih =>
    simp only [sortStable]
    by_cases hd : key a = d
    · rw [filter_insertSorted_eq key a _ d hd, ih, List.filter_cons]
      simp [hd]
    · rw [filter_insertSorted_ne key a _ d hd, ih, List.filter_cons]
      simp [hd]

/-! ### Helper lemmas about filters and `setFirstPaid` -/

theorem filter_eq_nil_of_any_false {l : List α} {f : α → Bool}
    (h : l.any f = false) : l.filter f = [] := by
  rw [List.filter_eq_nil_iff]
  intro a ha
  simp only [List.any_eq_false] at h
  exact h a ha

theorem one_le_filter_length_of_any {l : List α} {f : α → Bool}
    (h : l.any f = true) : 1 ≤ (l.filter f).length := by
  rw [List.any_eq_true] at h
  obtain ⟨x, hx, hfx⟩ := h
  exact List.length_pos.mpr (List.ne_nil_of_mem (List.mem_filter.mpr ⟨hx, hfx⟩))

theorem paid_update_eta (p : EMIPayment) (h : p.paid = true) :
    { p with paid := true } = p := by
  cases p
  simp_all

theorem setFirstPaid_any (pid : Nat) (d : Date) (l : List EMIPayment) :
    (setFirstPaid pid d l).any (fun p => p.plan_id == pid && p.due_date == d) =
      l.any (fun p => p.plan_id == pid && p.due_date == d) := by
  induction l with
  | nil => simp [setFirstPaid]
  | cons p ps ih =>
    simp only [setFirstPaid]
    by_cases hp : (p.plan_id == pid && p.due_date == d) = true
    · rw [if_pos hp]
      have hp' : (({ p with paid := true } : EMIPayment).plan_id == pid &&
          ({ p with paid := true } : EMIPayment).due_date == d) = true := hp
      simp [List.any_cons, hp, hp']
    · rw [if_neg hp]
      simp only [List.any_cons, ih]

theorem setFirstPaid_idem (pid : Nat) (d : Date) (l : List EMIPayment) :
    setFirstPaid pid d (setFirstPaid pid d l) = setFirstPaid pid d l := by
  induction l with
  | nil => simp [setFirstPaid]
  | cons p ps ih =>
    simp only [setFirstPaid]
    by_cases hp : (p.plan_id == pid && p.due_date == d) = true
    · rw [if_pos hp]
      simp only [setFirstPaid]
      rw [if_pos hp]
    · rw [if_neg hp]
      simp only [setFirstPaid]
      rw [if_neg hp, ih]

theorem setFirstPaid_append_of_none (pid : Nat) (d : Date)
    {l : List EMIPayment}
    (h : l.any (fun p => p.plan_id == pid && p.due_date == d) = false)
    (l₂ : List EMIPayment) :
    setFirstPaid pid d (l ++ l₂) = l ++ setFirstPaid pid d l₂ := by
  induction l with
  | nil => simp
  | cons p ps ih =>
    simp only [List.any_cons, Bool.or_eq_false_iff] at h
    simp only [List.cons_append, setFirstPaid]
    rw [if_neg (by simp [h.1])]
    exact congrArg (List.cons p) (ih h.2)

theorem setFirstPaid_filter_length (pid : Nat) (d : Date) (l : List EMIPayment) :
    ((setFirstPaid pid d l).filter
        (fun p => p.plan_id == pid && p.due_date == d)).length =
      (l.filter (fun p => p.plan_id == pid && p.due_date == d)).length := by
  induction l with
  | nil => simp [setFirstPaid]
  | cons p ps ih =>
    simp only [setFirstPaid]
    by_cases hp : (p.plan_id == pid && p.due_date == d) = true
    · rw [if_pos hp]
      simp only [Bool.and_eq_true, beq_iff_eq] at hp
      simp [List.filter_cons, hp]
    · rw [if_neg hp]
      simp only [List.filter_cons]
      rw [if_neg hp, if_neg hp, ih]

theorem setFirstPaid_all_paid (pid : Nat) (d : Date) {l : List EMIPayment}
    (hany : l.any (fun p => p.plan_id == pid && p.due_date == d) = true)
    (hcount :
      (l.filter (fun p => p.plan_id == pid && p.due_date == d)).length ≤ 1) :
    ∀ p ∈ setFirstPaid pid d l, p.plan_id = pid → p.due_date = d →
      p.paid = true := by
  induction l with
  | nil => simp [setFirstPaid]
  | cons q qs ih =>
    simp only [setFirstPaid]
    by_cases hq : (q.plan_id == pid && q.due_date == d) = true
    · rw [if_pos hq]
      intro p hp hpid hdue
      rcases List.mem_cons.mp hp with rfl | hp
      · rfl
      · exfalso
        simp only [List.filter_cons] at hcount
        rw [if_pos hq] at hcount
        simp only [List.length_cons] at hcount
        have hqs :
            (qs.filter (fun p => p.plan_id == pid && p.due_date == d)).length
              = 0 := by omega
        have hmem : p ∈ qs.filter (fun p => p.plan_id == pid && p.due_date == d) :=
          List.mem_filter.mpr ⟨hp, by simp [hpid, hdue]⟩
        rw [List.length_eq_zero] at hqs
        simp [hqs] at hmem
    · rw [if_neg hq]
      intro p hp hpid hdue
      rcases List.mem_cons.mp hp with rfl | hp
      · exfalso
        simp [hpid, hdue] at hq
      · have hany' : qs.any (fun p => p.plan_id == pid && p.due_date == d) = true := by
          simp only [List.any_cons, Bool.or_eq_true] at hany
          rcases hany with h | h
          · exact absurd h hq
          · exact h
        have hcount' :
            (qs.filter (fun p => p.plan_id == pid && p.due_date == d)).length
              ≤ 1 := by
          simp only [List.filter_cons] at hcount
          rw [if_neg hq] at hcount
          exact hcount
        exact ih hany' hcount' p hp hpid hdue

/-! ### C1: reconciliation marks an occurrence paid exactly when its due
date has a recorded payment row -/

/-- C1.  For every plan with `durationMonths ≥ 1`, every entry of the
reconciled schedule is marked paid exactly when its due date equals (by
exact calendar-date equality) the due date of some recorded payment row of
that plan. -/
theorem c1_reconciliation_paid_iff_recorded (plan : EMIPlan)
    (payments : List EMIPayment) (_h : 1 ≤ plan.duration_months) :
    ∀ e ∈ calculate_emi_schedule plan payments,
      (e.is_paid = true ↔
        ∃ p ∈ payments, p.plan_id = plan.id ∧ p.due_date = e.due_date) := by
  intro e he
  simp only [calculate_emi_schedule, List.mem_map, List.mem_range] at he
  obtain ⟨i, hi, rfl⟩ := he
  simp only [List.elem_iff, paidDates, List.mem_map, List.mem_filter,
    Bool.and_eq_true, beq_iff_eq]
  constructor
  · rintro ⟨p, ⟨hp, hpid⟩, hdue⟩
    exact ⟨p, hp, hpid, hdue⟩
  · rintro ⟨p, hp, hpid, hdue⟩
    exact ⟨p, ⟨hp, hpid⟩, hdue⟩

/-- C1 witness: the spec's example — five occurrences, payments recorded for
the second and fourth due date, giving the paid pattern
`[false, true, false, true, false]`. -/
theorem c1_witness :
    (1 : Int) ≤
      (1 : Int) ∧
    (∀ e ∈ calculate_emi_schedule
        { id := 1, start_date := ⟨2024, 1, 15⟩, amount := 5,
          duration_months := 5, note := "x", monthly_payment := 1 }
        [⟨0, 1, ⟨2024, 2, 15⟩, true⟩, ⟨1, 1, ⟨2024, 4, 15⟩, true⟩],
      (e.is_paid = true ↔
        ∃ p ∈ [(⟨0, 1, ⟨2024, 2, 15⟩, true⟩ : EMIPayment),
               ⟨1, 1, ⟨2024, 4, 15⟩, true⟩],
          p.plan_id = 1 ∧ p.due_date = e.due_date)) ∧
    (calculate_emi_schedule
        { id := 1, start_date := ⟨2024, 1, 15⟩, amount := 5,
          duration_months := 5, note := "x", monthly_payment := 1 }
        [⟨0, 1, ⟨2024, 2, 15⟩, true⟩, ⟨1, 1, ⟨2024, 4, 15⟩, true⟩]).map
      (fun e => e.is_paid) = [false, true, false, true, false] :=
  ⟨by decide,
   c1_reconciliation_paid_iff_recorded
     { id := 1, start_date := ⟨2024, 1, 15⟩, amount := 5,
       duration_months := 5, note := "x", monthly_payment := 1 }
     [⟨0, 1, ⟨2024, 2, 15⟩, true⟩, ⟨1, 1, ⟨2024, 4, 15⟩, true⟩]
     (by decide),
   by decide⟩

/-! ### C2: schedule length and due dates -/

/-- C2.  For every plan (stored plans satisfy `duration_months > 0`), the
generated schedule has exactly `duration_months` entries and the `i`-th
entry is due `i` calendar months after the start date. -/
theorem c2_schedule_length_and_due_dates (plan : EMIPlan)
    (payments : List EMIPayment) (h : 0 < plan.duration_months) :
    ((calculate_emi_schedule plan payments).length : Int) =
      plan.duration_months ∧
    (calculate_emi_schedule plan payments).map (fun e => e.due_date) =
      (List.range plan.duration_months.toNat).map
        (fun i => addMonths plan.start_date i) := by
  constructor
  · simp only [calculate_emi_schedule, List.length_map, List.length_range]
    omega
  · simp only [calculate_emi_schedule, List.map_map]
    rfl

/-- C2 witness: a three-month plan starting 2024-01-31 has three occurrences
due on the start date and one and two months later. -/
theorem c2_witness :
    (0 : Int) < (3 : Int) ∧
    ((calculate_emi_schedule
        { id := 1, start_date := ⟨2024, 1, 31⟩, amount := 3,
          duration_months := 3, note := "car", monthly_payment := 1 }
        []).length : Int) = 3 ∧
    (calculate_emi_schedule
        { id := 1, start_date := ⟨2024, 1, 31⟩, amount := 3,
          duration_months := 3, note := "car", monthly_payment := 1 }
        []).map (fun e => e.due_date) =
      (List.range (Int.toNat 3)).map (fun i => addMonths ⟨2024, 1, 31⟩ i) :=
  ⟨by decide,
   (c2_schedule_length_and_due_dates
     { id := 1, start_date := ⟨2024, 1, 31⟩, amount := 3,
       duration_months := 3, note := "car", monthly_payment := 1 }
     [] (by decide)).1,
   (c2_schedule_length_and_due_dates
     { id := 1, start_date := ⟨2024, 1, 31⟩, amount := 3,
       duration_months := 3, note := "car", monthly_payment := 1 }
     [] (by decide)).2⟩

/-! ### C3: consecutive due dates -/

/-- The spec's worked example: start date 2024-01-31, three months. -/
def plan0 : EMIPlan :=
  { id := 1, start_date := ⟨2024, 1, 31⟩, amount := 3, duration_months := 3,
    note := "car", monthly_payment := 1 }

theorem monthIdx_addMonths (d : Date) (n : Nat) :
    monthIdx (addMonths d n) = d.year * 12 + (d.month - 1) + n := by
  simp [monthIdx, addMonths]
  omega

/-- C3 counterexample.  The schedule of `plan0` is not a chain of
`addMonths · 1` steps: its due dates are 2024-01-31, 2024-02-29, 2024-03-31,
but one calendar month (with clamping) after 2024-02-29 is 2024-03-29, not
2024-03-31 — the generator anchors every occurrence at the start date
instead of at the previous occurrence. -/
theorem c3_counterexample :
    ¬ List.Chain'
        (fun x y : ScheduleEntry => y.due_date = addMonths x.due_date 1)
        (calculate_emi_schedule plan0 []) := by
  intro hch
  rw [show calculate_emi_schedule plan0 [] =
      [⟨1, (2024, 1), ⟨2024, 1, 31⟩, 1, "car", false⟩,
       ⟨1, (2024, 2), ⟨2024, 2, 29⟩, 1, "car", false⟩,
       ⟨1, (2024, 3), ⟨2024, 3, 31⟩, 1, "car", false⟩] from by decide] at hch
  rw [List.chain'_cons, List.chain'_cons] at hch
  exact absurd hch.2.1 (by decide)

/-- C3 amended.  Consecutive due dates advance the month index by exactly
one, and the day of every later due date is the start day clamped to the
length of its month (all occurrences are anchored at the start date, so the
day can grow back after a clamped month); the spec's example
2024-01-31 → 2024-02-29 → 2024-03-31 holds as stated. -/
theorem c3_amended :
    (∀ (plan : EMIPlan) (ps : List EMIPayment),
      List.Chain'
        (fun x y : ScheduleEntry =>
          monthIdx y.due_date = monthIdx x.due_date + 1 ∧
          y.due_date.day =
            min plan.start_date.day
              (daysInMonth y.due_date.year y.due_date.month))
        (calculate_emi_schedule plan ps)) ∧
    (calculate_emi_schedule plan0 []).map (fun e => e.due_date) =
      [⟨2024, 1, 31⟩, ⟨2024, 2, 29⟩, ⟨2024, 3, 31⟩] := by
  constructor
  · intro plan ps
    have hsched : calculate_emi_schedule plan ps =
        (List.range plan.duration_months.toNat).map (fun i =>
          { plan_id := plan.id
            month := ((addMonths plan.start_date i).year,
                      (addMonths plan.start_date i).month)
            due_date := addMonths plan.start_date i
            amount := plan.monthly_payment
            note := plan.note
            is_paid := (paidDates plan ps).contains
              (addMonths plan.start_date i) }) := rfl
    rw [hsched, List.chain'_map]
    cases hn : plan.duration_months.toNat with
    | zero => simp
    | succ n =>
      rw [List.chain'_range_succ]
      intro m hm
      refine ⟨?_, ?_⟩
      · rw [monthIdx_addMonths, monthIdx_addMonths]
        omega
      · simp [addMonths]
  · decide

/-! ### C4: idempotence of recording a payment -/

/-- C4.  For a state with at most one payment row under the key
`(pid, d)` (the situation the operations themselves maintain), recording the
payment twice produces exactly the state of recording it once, and
afterwards exactly one payment row holds the key, with `paid = true`. -/
theorem c4_mark_paid_idempotent (s : AppState) (pid : Nat) (d : Date)
    (h : countKey pid d s ≤ 1) :
    mark_emi_paid pid d (mark_emi_paid pid d s) = mark_emi_paid pid d s ∧
    countKey pid d (mark_emi_paid pid d s) = 1 ∧
    ∀ p ∈ (mark_emi_paid pid d s).payments,
      p.plan_id = pid → p.due_date = d → p.paid = true := by
  by_cases hany :
      s.payments.any (fun p => p.plan_id == pid && p.due_date == d) = true
  · have hm : mark_emi_paid pid d s =
        { s with payments := setFirstPaid pid d s.payments } := by
      unfold mark_emi_paid
      rw [if_pos hany]
    have hany2 : (setFirstPaid pid d s.payments).any
        (fun p => p.plan_id == pid && p.due_date == d) = true := by
      rw [setFirstPaid_any]
      exact hany
    refine ⟨?_, ?_, ?_⟩
    · rw [hm]
      unfold mark_emi_paid
      rw [if_pos hany2]
      simp [setFirstPaid_idem]
    · rw [hm]
      unfold countKey
      have hlen := setFirstPaid_filter_length pid d s.payments
      have h1 := one_le_filter_length_of_any hany
      unfold countKey at h
      simp only []
      omega
    · rw [hm]
      intro p hp hpid hdue
      exact setFirstPaid_all_paid pid d hany h p hp hpid hdue
  · have hany' :
        s.payments.any (fun p => p.plan_id == pid && p.due_date == d) = false :=
      Bool.not_eq_true _ ▸ hany
    have hm : mark_emi_paid pid d s =
        { s with
          payments := s.payments ++ [⟨s.next_payment_id, pid, d, true⟩]
          next_payment_id := s.next_payment_id + 1 } := by
      unfold mark_emi_paid
      rw [if_neg hany]
    have hr : ((⟨s.next_payment_id, pid, d, true⟩ : EMIPayment).plan_id == pid &&
        (⟨s.next_payment_id, pid, d, true⟩ : EMIPayment).due_date == d) = true := by
      simp
    have hany2 :
        (s.payments ++ [(⟨s.next_payment_id, pid, d, true⟩ : EMIPayment)]).any
          (fun p => p.plan_id == pid && p.due_date == d) = true := by
      rw [List.any_append]
      simp [hr]
    refine ⟨?_, ?_, ?_⟩
    · rw [hm]
      unfold mark_emi_paid
      rw [if_pos hany2]
      rw [setFirstPaid_append_of_none pid d hany']
      simp only [setFirstPaid]
      rw [if_pos hr]
    · rw [hm]
      unfold countKey
      simp only [List.filter_append]
      rw [filter_eq_nil_of_any_false hany']
      simp [hr]
    · rw [hm]
      intro p hp hpid hdue
      simp only [List.mem_append, List.mem_singleton] at hp
      rcases hp with hp | rfl
      · exfalso
        simp only [List.any_eq_false] at hany'
        have := hany' p hp
        simp [hpid, hdue] at this
      · rfl

/-- C4 witness: a state holding one unpaid row for the key; recording twice
equals recording once and leaves one paid row. -/
theorem c4_witness :
    countKey 1 ⟨2024, 2, 1⟩
        { plans := [], payments := [⟨0, 1, ⟨2024, 2, 1⟩, false⟩],
          next_plan_id := 0, next_payment_id := 1 } ≤ 1 ∧
    (mark_emi_paid 1 ⟨2024, 2, 1⟩ (mark_emi_paid 1 ⟨2024, 2, 1⟩
        { plans := [], payments := [⟨0, 1, ⟨2024, 2, 1⟩, false⟩],
          next_plan_id := 0, next_payment_id := 1 }) =
      mark_emi_paid 1 ⟨2024, 2, 1⟩
        { plans := [], payments := [⟨0, 1, ⟨2024, 2, 1⟩, false⟩],
          next_plan_id := 0, next_payment_id := 1 }) ∧
    countKey 1 ⟨2024, 2, 1⟩ (mark_emi_paid 1 ⟨2024, 2, 1⟩
        { plans := [], payments := [⟨0, 1, ⟨2024, 2, 1⟩, false⟩],
          next_plan_id := 0, next_payment_id := 1 }) = 1 :=
  ⟨by decide,
   (c4_mark_paid_idempotent
     { plans := [], payments := [⟨0, 1, ⟨2024, 2, 1⟩, false⟩],
       next_plan_id := 0, next_payment_id := 1 } 1 ⟨2024, 2, 1⟩ (by decide)).1,
   (c4_mark_paid_idempotent
     { plans := [], payments := [⟨0, 1, ⟨2024, 2, 1⟩, false⟩],
       next_plan_id := 0, next_payment_id := 1 } 1 ⟨2024, 2, 1⟩
     (by decide)).2.1⟩

/-! ### C6: validation on plan creation -/

/-- C6 counterexample.  A plan with amount `-100` is accepted and stored:
`add_emi_plan` only validates `duration_months` and never checks the sign of
the amount. -/
theorem c6_counterexample :
    (add_emi_plan (-100) 5 "x" ⟨2024, 1, 1⟩ emptyState).toOption.map
      (fun r => r.1.plans.map (fun p => p.amount)) = some [-100] ∧
    (-100 : Rat) ≤ 0 := by
  constructor
  · rfl
  · decide

/-- C6 amended.  `createPlan` rejects `durationMonths ≤ 0` with a
ValidationError before any schedule computation or storage, so every stored
plan satisfies `duration_months > 0`; the amount is not validated, so stored
plans may have `amount ≤ 0`. -/
theorem c6_amended (amount : Rat) (dur : Int) (note : String) (d : Date)
    (s : AppState) :
    (dur ≤ 0 → add_emi_plan amount dur note d s = .error .validation) ∧
    (∀ s' i, add_emi_plan amount dur note d s = .ok (s', i) →
      (∀ p ∈ s.plans, 0 < p.duration_months) →
      ∀ p ∈ s'.plans, 0 < p.duration_months) := by
  constructor
  · intro hdur
    unfold add_emi_plan
    rw [if_pos hdur]
  · intro s' i hok hinv p hp
    unfold add_emi_plan at hok
    by_cases hdur : dur ≤ 0
    · rw [if_pos hdur] at hok
      exact absurd hok (by simp)
    · rw [if_neg hdur] at hok
      by_cases hdup :
          s.plans.any (fun p => p.note == note && p.start_date == d) = true
      · rw [if_pos hdup] at hok
        exact absurd hok (by simp)
      · rw [if_neg hdup] at hok
        simp only [Except.ok.injEq, Prod.mk.injEq] at hok
        obtain ⟨hs', _⟩ := hok
        subst hs'
        simp only [List.mem_append, List.mem_singleton] at hp
        rcases hp with hp | rfl
        · exact hinv p hp
        · simpa using hdur

/-- C6 amended witness: a non-positive duration is rejected. -/
theorem c6_witness :
    ((-1 : Int) ≤ 0) ∧
    add_emi_plan 100 (-1) "" ⟨2024, 1, 1⟩ emptyState = .error .validation :=
  ⟨by decide,
   (c6_amended 100 (-1) "" ⟨2024, 1, 1⟩ emptyState).1 (by decide)⟩

/-! ### C7: duplicate (note, start date) rejection -/

/-- C7.  Starting from a state with no plan carrying the pair
`(note, start_date)`, a first valid creation succeeds and a second creation
with the same pair fails with a DuplicateError, leaving exactly one stored
plan with that pair.  The pair match is `String`/`Date` equality: exact,
case-sensitive, and the empty note participates like any other. -/
theorem c7_duplicate_rejected (s : AppState) (a₁ a₂ : Rat) (dur₁ dur₂ : Int)
    (note : String) (d : Date)
    (h₁ : 0 < dur₁) (h₂ : 0 < dur₂)
    (h0 : s.plans.any (fun p => p.note == note && p.start_date == d) = false) :
    ∃ s₁ id₁, add_emi_plan a₁ dur₁ note d s = .ok (s₁, id₁) ∧
      add_emi_plan a₂ dur₂ note d s₁ = .error .duplicate ∧
      (s₁.plans.filter (fun p => p.note == note && p.start_date == d)).length
        = 1 := by
  have hstep : add_emi_plan a₁ dur₁ note d s =
      .ok ({ s with
             plans := s.plans ++
               [{ id := s.next_plan_id, start_date := d, amount := a₁,
                  duration_months := dur₁, note := note,
                  monthly_payment := a₁ / (dur₁ : Rat) }]
             next_plan_id := s.next_plan_id + 1 }, s.next_plan_id) := by
    unfold add_emi_plan
    rw [if_neg (by omega), if_neg (by simp [h0])]
  refine ⟨_, _, hstep, ?_, ?_⟩
  · unfold add_emi_plan
    rw [if_neg (show ¬ dur₂ ≤ 0 by omega)]
    rw [if_pos ?_]
    rw [List.any_append]
    simp
  · simp only [List.filter_append]
    rw [filter_eq_nil_of_any_false h0]
    simp

/-- C7 witness: the spec's example — plan (note="Car", start=2024-01-01)
created twice on an empty store. -/
theorem c7_witness :
    (0 : Int) < 12 ∧
    (emptyState.plans.any
      (fun p => p.note == "Car" && p.start_date == (⟨2024, 1, 1⟩ : Date)))
      = false ∧
    ∃ s₁ id₁, add_emi_plan 1200 12 "Car" ⟨2024, 1, 1⟩ emptyState =
        .ok (s₁, id₁) ∧
      add_emi_plan 1200 12 "Car" ⟨2024, 1, 1⟩ s₁ = .error .duplicate ∧
      (s₁.plans.filter
        (fun p => p.note == "Car" && p.start_date == (⟨2024, 1, 1⟩ : Date))).length
        = 1 :=
  ⟨by decide, by decide,
   c7_duplicate_rejected emptyState 1200 1200 12 12 "Car" ⟨2024, 1, 1⟩
     (by decide) (by decide) (by decide)⟩

/-! ### C8: deletion cascades to payment rows -/

/-- C8.  Deleting an existing plan removes it and all of its payment rows:
afterwards the plan id has no stored plan, no payment row references it, and
listing its payment dates yields the empty list. -/
theorem c8_delete_cascades (s : AppState) (pid : Nat)
    (h : s.plans.any (fun p => p.id == pid) = true) :
    ∃ s', delete_emi_plan pid s = .ok s' ∧
      listPaymentDates pid s' = [] ∧
      s'.payments.all (fun p => p.plan_id != pid) = true ∧
      s'.plans.all (fun p => p.id != pid) = true := by
  refine ⟨{ s with
            plans := s.plans.filter (fun p => p.id != pid)
            payments := s.payments.filter (fun p => p.plan_id != pid) },
    ?_, ?_, ?_, ?_⟩
  · unfold delete_emi_plan
    rw [if_pos h]
  · show ((s.payments.filter (fun p => p.plan_id != pid)).filter
      (fun p => p.plan_id == pid)).map (fun p => p.due_date) = []
    have hnil : (s.payments.filter (fun p => p.plan_id != pid)).filter
        (fun p => p.plan_id == pid) = [] := by
      rw [List.filter_eq_nil_iff]
      intro a ha
      have h2 := (List.mem_filter.mp ha).2
      simp only [bne_iff_ne, ne_eq] at h2
      simp [h2]
    rw [hnil]
    rfl
  · rw [List.all_eq_true]
    intro p hp
    exact (List.mem_filter.mp hp).2
  · rw [List.all_eq_true]
    intro p hp
    exact (List.mem_filter.mp hp).2

/-- C8 witness: deleting plan 1, which owns two payment rows, leaves no
payment date listed for it. -/
theorem c8_witness :
    (([({ id := 1, start_date := ⟨2024, 1, 1⟩, amount := 2,
          duration_months := 2, note := "", monthly_payment := 1 } :
        EMIPlan)].any (fun p => p.id == 1)) = true) ∧
    ∃ s', delete_emi_plan 1
        { plans := [{ id := 1, start_date := ⟨2024, 1, 1⟩, amount := 2,
                      duration_months := 2, note := "", monthly_payment := 1 }],
          payments := [⟨0, 1, ⟨2024, 1, 1⟩, true⟩, ⟨1, 1, ⟨2024, 2, 1⟩, true⟩],
          next_plan_id := 2, next_payment_id := 2 } = .ok s' ∧
      listPaymentDates 1 s' = [] ∧
      s'.payments.all (fun p => p.plan_id != 1) = true ∧
      s'.plans.all (fun p => p.id != 1) = true :=
  ⟨by decide,
   c8_delete_cascades
     { plans := [{ id := 1, start_date := ⟨2024, 1, 1⟩, amount := 2,
                   duration_months := 2, note := "", monthly_payment := 1 }],
       payments := [⟨0, 1, ⟨2024, 1, 1⟩, true⟩, ⟨1, 1, ⟨2024, 2, 1⟩, true⟩],
       next_plan_id := 2, next_payment_id := 2 } 1 (by decide)⟩

/-! ### C9: operations on a nonexistent plan id -/

/-- C9 counterexample.  `mark_emi_paid` on a plan id that does not exist
(the empty store) does not fail and does not leave the state unchanged: it
inserts an orphan payment row, because the route never looks the plan up. -/
theorem c9_counterexample :
    emptyState.plans.any (fun p => p.id == 1) = false ∧
    mark_emi_paid 1 ⟨2024, 2, 1⟩ emptyState ≠ emptyState := by
  constructor
  · decide
  · decide

/-- C9 amended.  For a nonexistent plan id, `delete_emi_plan` fails with a
NotFoundError (HTTP 404 via `get_or_404`) leaving no state to commit, but
`mark_emi_paid` performs no existence check: it succeeds and afterwards a
payment row with the key `(pid, d)` exists. -/
theorem c9_amended (s : AppState) (pid : Nat) (d : Date)
    (h : s.plans.any (fun p => p.id == pid) = false) :
    delete_emi_plan pid s = .error .notFound ∧
    1 ≤ countKey pid d (mark_emi_paid pid d s) := by
  constructor
  · unfold delete_emi_plan
    rw [if_neg (by simp [h])]
  · unfold mark_emi_paid
    by_cases hany :
        s.payments.any (fun p => p.plan_id == pid && p.due_date == d) = true
    · rw [if_pos hany]
      show 1 ≤ ((setFirstPaid pid d s.payments).filter
        (fun p => p.plan_id == pid && p.due_date == d)).length
      rw [setFirstPaid_filter_length]
      exact one_le_filter_length_of_any hany
    · rw [if_neg hany]
      have hany' :
          s.payments.any (fun p => p.plan_id == pid && p.due_date == d)
            = false := Bool.not_eq_true _ ▸ hany
      show 1 ≤ ((s.payments ++
          [(⟨s.next_payment_id, pid, d, true⟩ : EMIPayment)]).filter
        (fun p => p.plan_id == pid && p.due_date == d)).length
      rw [List.filter_append, filter_eq_nil_of_any_false hany']
      simp

/-- C9 amended witness: on the empty store, deleting plan 1 is a 404 and
marking plan 1 paid creates the key. -/
theorem c9_witness :
    emptyState.plans.any (fun p => p.id == 1) = false ∧
    delete_emi_plan 1 emptyState = .error .notFound ∧
    1 ≤ countKey 1 ⟨2024, 3, 1⟩ (mark_emi_paid 1 ⟨2024, 3, 1⟩ emptyState) :=
  ⟨by decide,
   (c9_amended emptyState 1 ⟨2024, 3, 1⟩ (by decide)).1,
   (c9_amended emptyState 1 ⟨2024, 3, 1⟩ (by decide)).2⟩

/-! ### C10: paid status depends only on record existence -/

/-- The schedule depends on the payment rows only through their
`(plan_id, due_date)` keys, never through the stored `paid` flag. -/
theorem calculate_emi_schedule_congr (plan : EMIPlan)
    {ps₁ ps₂ : List EMIPayment}
    (h : paidDates plan ps₁ = paidDates plan ps₂) :
    calculate_emi_schedule plan ps₁ = calculate_emi_schedule plan ps₂ := by
  unfold calculate_emi_schedule
  rw [h]

/-- C10.  Rewriting every stored `paid` flag arbitrarily leaves the
reconciled schedule unchanged, and a payment row whose `paid` flag is
`false` (the schema default) still marks the matching occurrence paid and
counts toward the per-plan `total_paid`. -/
theorem c10_paid_flag_irrelevant (plan : EMIPlan) (ps : List EMIPayment)
    (b : EMIPayment → Bool) :
    calculate_emi_schedule plan (ps.map (fun p => { p with paid := b p })) =
      calculate_emi_schedule plan ps ∧
    ∀ q ∈ ps, q.plan_id = plan.id → q.paid = false →
      ∀ i, i < plan.duration_months.toNat →
        q.due_date = addMonths plan.start_date i →
        (∃ e ∈ calculate_emi_schedule plan ps,
          e.due_date = q.due_date ∧ e.is_paid = true) ∧
        1 ≤ totalPaid plan ps := by
  constructor
  · apply calculate_emi_schedule_congr
    unfold paidDates
    rw [List.filter_map, List.map_map]
    rfl
  · intro q hq hpid hpaid i hi hdate
    have hpd : q.due_date ∈ paidDates plan ps := by
      unfold paidDates
      exact List.mem_map.mpr ⟨q, List.mem_filter.mpr ⟨hq, by simp [hpid]⟩, rfl⟩
    have he : ∃ e ∈ calculate_emi_schedule plan ps,
        e.due_date = q.due_date ∧ e.is_paid = true := by
      refine ⟨_, List.mem_map.mpr ⟨i, List.mem_range.mpr hi, rfl⟩, ?_, ?_⟩
      · exact hdate.symm
      · show (paidDates plan ps).contains (addMonths plan.start_date i) = true
        rw [← hdate]
        exact List.elem_iff.mpr hpd
    refine ⟨he, ?_⟩
    obtain ⟨e, hemem, _, hep⟩ := he
    exact one_le_filter_length_of_any (List.any_eq_true.mpr ⟨e, hemem, hep⟩)

/-- C10 witness: a single payment row stored with `paid = false` still makes
the matching second occurrence report paid and gives `total_paid ≥ 1`. -/
theorem c10_witness :
    ((⟨0, 1, ⟨2024, 2, 15⟩, false⟩ : EMIPayment) ∈
      [(⟨0, 1, ⟨2024, 2, 15⟩, false⟩ : EMIPayment)]) ∧
    (∃ e ∈ calculate_emi_schedule
        { id := 1, start_date := ⟨2024, 1, 15⟩, amount := 5,
          duration_months := 5, note := "x", monthly_payment := 1 }
        [⟨0, 1, ⟨2024, 2, 15⟩, false⟩],
      e.due_date = (⟨0, 1, ⟨2024, 2, 15⟩, false⟩ : EMIPayment).due_date ∧
        e.is_paid = true) ∧
    1 ≤ totalPaid
        { id := 1, start_date := ⟨2024, 1, 15⟩, amount := 5,
          duration_months := 5, note := "x", monthly_payment := 1 }
        [⟨0, 1, ⟨2024, 2, 15⟩, false⟩] :=
  ⟨by decide,
   ((c10_paid_flag_irrelevant
       { id := 1, start_date := ⟨2024, 1, 15⟩, amount := 5,
         duration_months := 5, note := "x", monthly_payment := 1 }
       [⟨0, 1, ⟨2024, 2, 15⟩, false⟩] (fun _ => true)).2
     ⟨0, 1, ⟨2024, 2, 15⟩, false⟩ (by decide) rfl rfl 1 (by decide)
     (by decide)).1,
   ((c10_paid_flag_irrelevant
       { id := 1, start_date := ⟨2024, 1, 15⟩, amount := 5,
         duration_months := 5, note := "x", monthly_payment := 1 }
       [⟨0, 1, ⟨2024, 2, 15⟩, false⟩] (fun _ => true)).2
     ⟨0, 1, ⟨2024, 2, 15⟩, false⟩ (by decide) rfl rfl 1 (by decide)
     (by decide)).2⟩

/-! ### C5: the cross-plan upcoming list -/

/-- C5.  The upcoming list contains exactly the occurrences (from all plans,
in the fixed plan-iteration order) that are unpaid and due on or after the
injected current date; it is sorted ascending by due date; and the sort is
stable: the entries holding any fixed due date appear in exactly their
original relative order. -/
theorem c5_upcoming_list (s : AppState) (today : Date) :
    (∀ p, p ∈ upcomingPayments s today ↔
      (p ∈ allPayments s ∧ p.is_paid = false ∧
        dateLe today p.due_date = true)) ∧
    (upcomingPayments s today).Pairwise
      (fun x y => dateLe x.due_date y.due_date = true) ∧
    (∀ d : Date,
      (upcomingPayments s today).filter (fun p => p.due_date == d) =
        ((allPayments s).filter
          (fun p => !p.is_paid && dateLe today p.due_date)).filter
            (fun p => p.due_date == d)) := by
  refine ⟨?_, ?_, ?_⟩
  · intro p
    unfold upcomingPayments
    rw [mem_sortStable, List.mem_filter]
    simp only [Bool.and_eq_true, Bool.not_eq_true']
  · unfold upcomingPayments
    exact pairwise_sortStable (fun e : ScheduleEntry => e.due_date) _
  · intro d
    unfold upcomingPayments
    exact filter_sortStable (fun e : ScheduleEntry => e.due_date) _ d

end EmiTracker
